import Mathlib

/-!
Verification development for the L2 input-derivation core
(`opnode/l2/input_derivation.go`): deposit-log decoding, L1-info
transaction synthesis, receipt-integrity checking, and block-input
derivation, shallowly embedded in Lean 4 and proved against the
specification's claims.

Bytes are modelled as `List Nat` (each entry a byte value), machine
integers as `Nat` with explicit `2 ^ 64` / `2 ^ 256` bounds where the
code checks them, Go `error` results as `Except DeriveErr`.
-/

set_option maxRecDepth 4000

namespace OpNode

/-- A byte string. -/
abbrev Bytes := List Nat

/-- Big-endian base-256 value of a byte string, as in Go's
`big.Int.SetBytes` and `uint256.Int.SetBytes`. -/
def bytesToNat (bs : Bytes) : Nat :=
  bs.foldl (fun acc b => acc * 256 + b) 0

/-- `common.BytesToAddress`: keep the rightmost 20 bytes, left-pad with
zero bytes when fewer than 20 are supplied. -/
def bytesToAddress (bs : Bytes) : Bytes :=
  if bs.length ≤ 20 then List.replicate (20 - bs.length) 0 ++ bs
  else bs.drop (bs.length - 20)

/-- `bs[off : off+len]` as used by the Go slicing in the decoder. -/
def sliceBytes (bs : Bytes) (off len : Nat) : Bytes :=
  (bs.drop off).take len

/-- Big-endian encoding of `n` into exactly `w` bytes
(`binary.BigEndian.PutUint64` for `w = 8`, `big.Int.FillBytes` for
`w = 32`); faithful when `n < 256 ^ w`. -/
def beBytes : Nat → Nat → Bytes
  | 0, _ => []
  | w + 1, n => beBytes w (n / 256) ++ [n % 256]

/-- `DepositEventABIHash = crypto.Keccak256Hash(DepositEventABI)`:
the 32-byte Keccak-256 digest of
"TransactionDeposited(address,address,uint256,uint256,uint256,bool,bytes)",
precomputed. -/
def DepositEventABIHash : Bytes :=
  [38, 19, 122, 94, 52, 68, 111, 99, 170, 158, 162, 135, 151, 160, 231, 12,
   57, 135, 114, 9, 19, 135, 152, 152, 128, 45, 214, 11, 148, 70, 21, 173]

/-- `DepositContractAddr = 0xdeaddeaddeaddeaddeaddeaddeaddeaddead0001`. -/
def DepositContractAddr : Bytes :=
  [0xde, 0xad, 0xde, 0xad, 0xde, 0xad, 0xde, 0xad, 0xde, 0xad,
   0xde, 0xad, 0xde, 0xad, 0xde, 0xad, 0xde, 0xad, 0x00, 0x01]

/-- `L1InfoFuncBytes4 = crypto.Keccak256(L1InfoFuncSignature)[:4]`: the
first 4 bytes of the Keccak-256 digest of
"setL1BlockValues(uint256 _number, uint256 _timestamp, uint256 _basefee, bytes32 _hash)",
precomputed. -/
def L1InfoFuncBytes4 : Bytes := [140, 137, 195, 134]

/-- `L1InfoPredeployAddr = 0x4242424242424242424242424242424242424242`. -/
def L1InfoPredeployAddr : Bytes := List.replicate 20 0x42

/-- An EVM log record (`types.Log`): emitting address, 32-byte topics,
opaque data payload, and the log's original per-transaction index —
metadata the derivation path never reads (the remaining `types.Log`
metadata fields are likewise never read and are omitted). -/
structure Log where
  Address : Bytes
  Topics : List Bytes
  Data : Bytes
  Index : Nat
deriving DecidableEq, Repr

/-- `types.DepositTx`: the decoded deposit transaction. -/
structure DepositTx where
  BlockHeight : Nat
  TransactionIndex : Nat
  From : Bytes
  To : Option Bytes
  Mint : Option Nat
  Value : Nat
  Gas : Nat
  Data : Bytes
deriving DecidableEq, Repr

/-- The error taxonomy of the derivation path: one constructor per
`fmt.Errorf` site, carrying the values the Go message formats. -/
inductive DeriveErr where
  | expectedThreeTopics
  | invalidSelector (got expected : Bytes)
  | dataTooSmall (data : Bytes)
  | badGasValue (bytes : Bytes)
  | incorrectDataOffset (off : Nat)
  | dataTooLarge (len : Nat)
  | dataLengthTooLong (len max : Nat)
  | malformattedDepositLog (inner : DeriveErr)
  | integrityMismatch (receiptHash : Bytes)
  | failedToEncodeL1InfoTx
  | failedToDeriveUserDeposits (inner : DeriveErr)
  | failedToEncodeUserTx (i : Nat)
deriving DecidableEq, Repr

/-- `UnmarshalLogEvent` decodes a deposit-contract log into a
`DepositTx`, mirroring the Go validation sequence: topic count, topic[0]
selector, minimum payload size, then value / mint / gas /
creation-flag / data-offset / data-length in fixed order, then the data
slice.
The infallible field assignments the Go code interleaves with the
checks (from, to, value, mint, creation flag) are gathered in the final
record; only the fallible checks shape the control flow, in the Go
order. -/
def UnmarshalLogEvent (blockNum txIndex : Nat) (ev : Log) : Except DeriveErr DepositTx :=
  if ev.Topics.length ≠ 3 then
    .error .expectedThreeTopics
  else if ev.Topics.getD 0 [] ≠ DepositEventABIHash then
    .error (.invalidSelector (ev.Topics.getD 0 []) DepositEventABIHash)
  else if ev.Data.length < 6 * 32 then
    .error (.dataTooSmall ev.Data)
  else if 2 ^ 64 ≤ bytesToNat (sliceBytes ev.Data 64 32) then
    .error (.badGasValue (sliceBytes ev.Data 64 32))
  else if bytesToNat (sliceBytes ev.Data 128 32) = 128 then
    .error (.incorrectDataOffset (bytesToNat (sliceBytes ev.Data 128 32)))
  else if 2 ^ 64 ≤ bytesToNat (sliceBytes ev.Data 160 32) then
    .error (.dataTooLarge (bytesToNat (sliceBytes ev.Data 160 32)))
  else if ev.Data.length - 192 < bytesToNat (sliceBytes ev.Data 160 32) then
    .error (.dataLengthTooLong (bytesToNat (sliceBytes ev.Data 160 32)) (ev.Data.length - 192))
  else
    .ok { BlockHeight := blockNum, TransactionIndex := txIndex,
          From := bytesToAddress ((ev.Topics.getD 1 []).drop 12),
          To := if ev.Data.getD (96 + 31) 0 = 0
                then some (bytesToAddress ((ev.Topics.getD 2 []).drop 12)) else none,
          Mint := if bytesToNat (sliceBytes ev.Data 32 32) = 0
                  then none else some (bytesToNat (sliceBytes ev.Data 32 32)),
          Value := bytesToNat (sliceBytes ev.Data 0 32),
          Gas := bytesToNat (sliceBytes ev.Data 64 32),
          Data := sliceBytes ev.Data 192 (bytesToNat (sliceBytes ev.Data 160 32)) }

/-- The `L1Info` interface: accessors of an L1 block view. -/
structure L1Info where
  NumberU64 : Nat
  Time : Nat
  Hash : Bytes
  BaseFee : Nat
deriving DecidableEq, Repr

/-- `DeriveL1InfoDeposit`: the synthetic L1-attributes deposit
transaction, with its 4+8+8+32+32-byte payload. -/
def DeriveL1InfoDeposit (block : L1Info) : DepositTx :=
  let data := L1InfoFuncBytes4
    ++ beBytes 8 block.NumberU64
    ++ beBytes 8 block.Time
    ++ beBytes 32 block.BaseFee
    ++ (block.Hash.take 32 ++ List.replicate (32 - block.Hash.length) 0)
  { BlockHeight := block.NumberU64,
    TransactionIndex := 0,
    From := DepositContractAddr,
    To := some L1InfoPredeployAddr,
    Mint := none,
    Value := 0,
    Gas := 99999999,
    Data := data }

/-- `types.ReceiptStatusSuccessful`. -/
def ReceiptStatusSuccessful : Nat := 1

/-- `types.Receipt`: execution status plus emitted logs. -/
structure Receipt where
  Status : Nat
  Logs : List Log
deriving DecidableEq, Repr

/-- Injective pairing used by the stand-in receipts commitment. -/
def mixNat (a b : Nat) : Nat := (a + b) * (a + b + 1) / 2 + b

/-- Accumulated encoding of one log for the stand-in commitment. -/
def encodeLogNat (l : Log) : Nat :=
  mixNat (bytesToNat l.Address)
    (mixNat (l.Topics.foldl (fun a t => mixNat a (bytesToNat t)) 0) (bytesToNat l.Data))

/-- Accumulated encoding of one receipt for the stand-in commitment. -/
def encodeReceiptNat (r : Receipt) : Nat :=
  mixNat r.Status (r.Logs.foldl (fun a l => mixNat a (encodeLogNat l)) 0)

/-- Modelled from the spec: `types.DeriveSha` with a stack trie — the
execution layer's ordered Merkle-style accumulation over the receipt
list — is go-ethereum library code, not part of this repository. An
order-sensitive deterministic accumulation over the full receipt
contents stands in for it. -/
def DeriveSha (receipts : List Receipt) : Bytes :=
  beBytes 32 (receipts.foldl (fun a r => mixNat a (encodeReceiptNat r)) 1)

/-- The `BlockInput` interface: `L1Info` plus the receipts commitment
and the per-block randomness. -/
structure BlockInput extends L1Info where
  ReceiptHash : Bytes
  MixDigest : Bytes
deriving DecidableEq, Repr

/-- `CheckReceipts`: the block's claimed receipts root matches the
recomputed commitment. -/
def CheckReceipts (block : BlockInput) (receipts : List Receipt) : Bool :=
  block.ReceiptHash = DeriveSha receipts

/-- `DeriveUserDeposits` inner loop over one receipt's logs: keep logs
from the deposit contract, decode each with transaction index
`out.length + 1`, abort on the first failure. -/
def deriveFromLogs (height : Nat) (out : List DepositTx) :
    List Log → Except DeriveErr (List DepositTx)
  | [] => .ok out
  | log :: rest =>
    if log.Address = DepositContractAddr then
      match UnmarshalLogEvent height (out.length + 1) log with
      | .error e => .error (.malformattedDepositLog e)
      | .ok dep => deriveFromLogs height (out ++ [dep]) rest
    else
      deriveFromLogs height out rest

/-- `DeriveUserDeposits` outer loop: skip receipts whose status is not
successful, thread the accumulated deposit list through the rest. -/
def deriveFromReceipts (height : Nat) (out : List DepositTx) :
    List Receipt → Except DeriveErr (List DepositTx)
  | [] => .ok out
  | rec :: rest =>
    if rec.Status ≠ ReceiptStatusSuccessful then
      deriveFromReceipts height out rest
    else
      match deriveFromLogs height out rec.Logs with
      | .error e => .error e
      | .ok out2 => deriveFromReceipts height out2 rest

/-- `DeriveUserDeposits`: all deposits of a block's receipts, in
encounter order, indices starting at 1. -/
def DeriveUserDeposits (height : Nat) (receipts : List Receipt) :
    Except DeriveErr (List DepositTx) :=
  deriveFromReceipts height [] receipts

/-- Encoding of an optional field inside the stand-in transaction
encoding. -/
def encodeOptNat : Option Nat → Bytes
  | none => [0]
  | some n => 1 :: beBytes 32 n

/-- Encoding of an optional address inside the stand-in transaction
encoding. -/
def encodeOptBytes : Option Bytes → Bytes
  | none => [0]
  | some bs => 1 :: bs

/-- Modelled from the spec: the opaque binary (typed-transaction RLP)
encoding `types.NewTx(tx).MarshalBinary()` is go-ethereum library code,
not part of this repository. A deterministic byte encoding of every
`DepositTx` field stands in for it; it never fails. -/
def encodeDepositTx (tx : DepositTx) : Bytes :=
  0x7e :: beBytes 8 tx.BlockHeight ++ beBytes 8 tx.TransactionIndex
    ++ tx.From ++ encodeOptBytes tx.To ++ encodeOptNat tx.Mint
    ++ beBytes 32 tx.Value ++ beBytes 8 tx.Gas
    ++ beBytes 8 tx.Data.length ++ tx.Data

/-- `types.NewTx(tx).MarshalBinary()` as a fallible call, so the
orchestrator keeps its error branches; the stand-in encoding always
succeeds. -/
def MarshalBinary (tx : DepositTx) : Except DeriveErr Bytes :=
  .ok (encodeDepositTx tx)

/-- `PayloadAttributes`: the payload-attributes record handed to the
execution engine. -/
structure PayloadAttributes where
  Timestamp : Nat
  Random : Bytes
  SuggestedFeeRecipient : Bytes
  Transactions : List Bytes
deriving DecidableEq, Repr

/-- The loop of `DeriveBlockInputs` binary-encoding each user deposit,
reporting the index of a failing encode. -/
def encodeUserTxs (i : Nat) : List DepositTx → Except DeriveErr (List Bytes)
  | [] => .ok []
  | tx :: rest =>
    match MarshalBinary tx with
    | .error _ => .error (.failedToEncodeUserTx i)
    | .ok b =>
      match encodeUserTxs (i + 1) rest with
      | .error e => .error e
      | .ok bs => .ok (b :: bs)

/-- `DeriveBlockInputs`: check receipts integrity, encode the L1-info
transaction, derive and encode the user deposits, assemble the
payload-attributes record. -/
def DeriveBlockInputs (block : BlockInput) (receipts : List Receipt) :
    Except DeriveErr PayloadAttributes :=
  if ¬ CheckReceipts block receipts then
    .error (.integrityMismatch block.ReceiptHash)
  else
    match MarshalBinary (DeriveL1InfoDeposit block.toL1Info) with
    | .error _ => .error .failedToEncodeL1InfoTx
    | .ok opaqueL1Tx =>
      match DeriveUserDeposits block.NumberU64 receipts with
      | .error e => .error (.failedToDeriveUserDeposits e)
      | .ok userDeposits =>
        match encodeUserTxs 0 userDeposits with
        | .error e => .error e
        | .ok opaqueTxs =>
          .ok { Timestamp := block.Time,
                Random := block.MixDigest,
                SuggestedFeeRecipient := List.replicate 20 0,
                Transactions := opaqueL1Tx :: opaqueTxs }

deriving instance DecidableEq for Except

/-- `true` exactly on `Except.error`. -/
def isErr {ε α : Type} : Except ε α → Bool
  | .error _ => true
  | .ok _ => false

/-- The logs `DeriveUserDeposits` keeps: logs of successful receipts,
in receipt order then log order, emitted by the deposit contract. -/
def keptLogs (receipts : List Receipt) : List Log :=
  (receipts.filter (fun r => r.Status = ReceiptStatusSuccessful)).flatMap
    (fun r => r.Logs.filter (fun l => l.Address = DepositContractAddr))

/-- Sequential decoding of a kept-log list with indices `idx, idx+1, …`,
wrapping a failure the way `DeriveUserDeposits` does. -/
def decodeKept (height idx : Nat) : List Log → Except DeriveErr (List DepositTx)
  | [] => .ok []
  | log :: rest =>
    match UnmarshalLogEvent height idx log with
    | .error e => .error (.malformattedDepositLog e)
    | .ok dep => (decodeKept height (idx + 1) rest).map (dep :: ·)

/-- The decode failure of a log, if any: the same validation sequence as
`UnmarshalLogEvent`, which never consults the height or index arguments
on an error path. -/
def logDecodeErr (ev : Log) : Option DeriveErr :=
  if ev.Topics.length ≠ 3 then
    some .expectedThreeTopics
  else if ev.Topics.getD 0 [] ≠ DepositEventABIHash then
    some (.invalidSelector (ev.Topics.getD 0 []) DepositEventABIHash)
  else if ev.Data.length < 6 * 32 then
    some (.dataTooSmall ev.Data)
  else if 2 ^ 64 ≤ bytesToNat (sliceBytes ev.Data 64 32) then
    some (.badGasValue (sliceBytes ev.Data 64 32))
  else if bytesToNat (sliceBytes ev.Data 128 32) = 128 then
    some (.incorrectDataOffset (bytesToNat (sliceBytes ev.Data 128 32)))
  else if 2 ^ 64 ≤ bytesToNat (sliceBytes ev.Data 160 32) then
    some (.dataTooLarge (bytesToNat (sliceBytes ev.Data 160 32)))
  else if ev.Data.length - 192 < bytesToNat (sliceBytes ev.Data 160 32) then
    some (.dataLengthTooLong (bytesToNat (sliceBytes ev.Data 160 32)) (ev.Data.length - 192))
  else
    none

/-- A concrete well-formed deposit log used as evaluation witness:
value 5, mint 0, gas 21000, creation flag clear, data offset 192,
declared data length 2, two data bytes plus two padding bytes. -/
def sampleLog : Log :=
  { Address := DepositContractAddr,
    Topics := [DepositEventABIHash,
               List.replicate 12 0 ++ List.replicate 20 0x11,
               List.replicate 12 0 ++ List.replicate 20 0x22],
    Data := beBytes 32 5 ++ beBytes 32 0 ++ beBytes 32 21000
         ++ beBytes 32 0 ++ beBytes 32 192 ++ beBytes 32 2
         ++ [0xab, 0xcd, 0, 0],
    Index := 3 }

/-- A concrete malformed deposit log: same as `sampleLog` but with the
data-offset field equal to 128, which the decoder rejects. -/
def badOffsetLog : Log :=
  { Address := DepositContractAddr,
    Topics := sampleLog.Topics,
    Data := beBytes 32 5 ++ beBytes 32 0 ++ beBytes 32 21000
         ++ beBytes 32 0 ++ beBytes 32 128 ++ beBytes 32 2
         ++ [0xab, 0xcd, 0, 0],
    Index := 9 }

/-- The deposit `sampleLog` decodes to at height 7, index 1. -/
def sampleDep : DepositTx :=
  { BlockHeight := 7, TransactionIndex := 1,
    From := List.replicate 20 0x11, To := some (List.replicate 20 0x22),
    Mint := none, Value := 5, Gas := 21000, Data := [0xab, 0xcd] }

/-- A successful receipt holding only the malformed `badOffsetLog`. -/
def badRcpt : Receipt := { Status := 1, Logs := [badOffsetLog] }

/-- Like `sampleLog` but with data-offset field 999, a value inconsistent
with the actual position of the data in the payload. -/
def oddOffsetLog : Log :=
  { Address := DepositContractAddr,
    Topics := sampleLog.Topics,
    Data := beBytes 32 5 ++ beBytes 32 0 ++ beBytes 32 21000
         ++ beBytes 32 0 ++ beBytes 32 999 ++ beBytes 32 2
         ++ [0xab, 0xcd, 0, 0],
    Index := 2 }

/-- A concrete block view whose claimed receipts root does not match the
commitment of the empty receipt list. -/
def mismatchBlock : BlockInput :=
  { NumberU64 := 3, Time := 44, Hash := List.replicate 32 0xaa, BaseFee := 7,
    ReceiptHash := List.replicate 32 0, MixDigest := List.replicate 32 5 }

/-- A concrete block view whose claimed receipts root matches the
commitment of the empty receipt list. -/
def okBlock : BlockInput :=
  { NumberU64 := 3, Time := 44, Hash := List.replicate 32 0xaa, BaseFee := 7,
    ReceiptHash := DeriveSha [], MixDigest := List.replicate 32 5 }

/-- The payload attributes derived from `okBlock` with no receipts. -/
def okAttrs : PayloadAttributes :=
  { Timestamp := 44, Random := List.replicate 32 5,
    SuggestedFeeRecipient := List.replicate 20 0,
    Transactions := [encodeDepositTx (DeriveL1InfoDeposit okBlock.toL1Info)] }

example : isErr (UnmarshalLogEvent 7 1 sampleLog) = false := by decide
example : UnmarshalLogEvent 7 1 sampleLog = .ok sampleDep := by decide
example : UnmarshalLogEvent 7 1 badOffsetLog = .error (.incorrectDataOffset 128) := by decide
example : logDecodeErr badOffsetLog = some (.incorrectDataOffset 128) := by decide

/-- C1: `UnmarshalLogEvent` fails (with a MalformedEvent error) exactly
when one of the following holds, and succeeds otherwise: topic count is
not 3; topic[0] differs from the precomputed deposit-event signature
hash; the payload is shorter than 192 bytes; the gas field does not fit
in 64 bits; the data-offset field equals 128; the data-length field
does not fit in 64 bits or exceeds the bytes remaining after the six
fixed 32-byte fields. -/
theorem unmarshalLogEvent_error_iff (blockNum txIndex : Nat) (ev : Log) :
    isErr (UnmarshalLogEvent blockNum txIndex ev) = true ↔
      (ev.Topics.length ≠ 3 ∨
       ev.Topics.getD 0 [] ≠ DepositEventABIHash ∨
       ev.Data.length < 192 ∨
       2 ^ 64 ≤ bytesToNat (sliceBytes ev.Data 64 32) ∨
       bytesToNat (sliceBytes ev.Data 128 32) = 128 ∨
       2 ^ 64 ≤ bytesToNat (sliceBytes ev.Data 160 32) ∨
       ev.Data.length - 192 < bytesToNat (sliceBytes ev.Data 160 32)) := by
  unfold UnmarshalLogEvent
  split_ifs <;> simp_all [isErr]

/-- Unfolding equation of `decodeKept` on a cons cell. -/
theorem decodeKept_cons (height idx : Nat) (log : Log) (rest : List Log) :
    decodeKept height idx (log :: rest) =
      match UnmarshalLogEvent height idx log with
      | .error e => .error (.malformattedDepositLog e)
      | .ok dep => (decodeKept height (idx + 1) rest).map (dep :: ·) := rfl

/-- A successfully decoded deposit carries exactly the transaction index
passed to the decoder. -/
theorem unmarshalLogEvent_ok_txIndex (blockNum txIndex : Nat) (ev : Log) (dep : DepositTx)
    (h : UnmarshalLogEvent blockNum txIndex ev = .ok dep) :
    dep.TransactionIndex = txIndex := by
  unfold UnmarshalLogEvent at h
  split_ifs at h <;> cases h <;> rfl

/-- `decodeKept` succeeds with one deposit per log, the `i`-th carrying
transaction index `idx + i`. -/
theorem decodeKept_ok_spec (height : Nat) :
    ∀ (logs : List Log) (idx : Nat) (deps : List DepositTx),
      decodeKept height idx logs = .ok deps →
      deps.length = logs.length ∧
      ∀ i (hi : i < deps.length), (deps.get ⟨i, hi⟩).TransactionIndex = idx + i := by
  intro logs
  induction logs with
  | nil =>
    intro idx deps h
    simp [decodeKept] at h
    subst h
    simp
  | cons log rest ih =>
    intro idx deps h
    rw [decodeKept_cons] at h
    cases hm : UnmarshalLogEvent height idx log with
    | error e => rw [hm] at h; simp at h
    | ok dep =>
      rw [hm] at h
      cases hk : decodeKept height (idx + 1) rest with
      | error e => rw [hk] at h; simp [Except.map] at h
      | ok ds =>
        rw [hk] at h
        simp [Except.map] at h
        obtain ⟨hlen, hidx⟩ := ih (idx + 1) ds hk
        subst h
        refine ⟨by simp [hlen], ?_⟩
        intro i hi
        cases i with
        | zero =>
          simpa using unmarshalLogEvent_ok_txIndex height idx log dep hm
        | succ n =>
          have hn : n < ds.length := by simp at hi; omega
          have hds := hidx n hn
          have hget : (dep :: ds).get ⟨n + 1, hi⟩ = ds.get ⟨n, hn⟩ := rfl
          rw [hget, hds]
          omega

/-- `decodeKept` over an appended list: decode the first part, then the
second with the index advanced past it. -/
theorem decodeKept_append (height : Nat) :
    ∀ (xs : List Log) (idx : Nat) (ys : List Log),
      decodeKept height idx (xs ++ ys) =
        match decodeKept height idx xs with
        | .error e => .error e
        | .ok ds => (decodeKept height (idx + xs.length) ys).map (ds ++ ·) := by
  intro xs
  induction xs with
  | nil =>
    intro idx ys
    simp only [List.nil_append, decodeKept, List.length_nil, Nat.add_zero]
    cases decodeKept height idx ys <;> simp [Except.map]
  | cons x xs ih =>
    intro idx ys
    rw [List.cons_append, decodeKept_cons, decodeKept_cons]
    cases hm : UnmarshalLogEvent height idx x with
    | error e => rfl
    | ok dep =>
      rw [ih (idx + 1) ys]
      cases hk : decodeKept height (idx + 1) xs with
      | error e => rfl
      | ok ds =>
        have harith : idx + 1 + xs.length = idx + (xs.length + 1) := by omega
        rw [harith]
        cases hy : decodeKept height (idx + (xs.length + 1)) ys <;>
          simp [hy, Except.map, List.length_cons]

/-- `deriveFromLogs` refines `decodeKept` over the deposit-contract logs,
appended to the accumulator, with indices continuing from it. -/
theorem deriveFromLogs_eq (height : Nat) :
    ∀ (logs : List Log) (out : List DepositTx),
      deriveFromLogs height out logs =
        (decodeKept height (out.length + 1)
            (logs.filter (fun l => l.Address = DepositContractAddr))).map (out ++ ·) := by
  intro logs
  induction logs with
  | nil =>
    intro out
    simp [deriveFromLogs, decodeKept, Except.map]
  | cons log rest ih =>
    intro out
    by_cases ha : log.Address = DepositContractAddr
    · rw [deriveFromLogs, if_pos ha, List.filter_cons_of_pos (by simpa using ha), decodeKept_cons]
      cases hm : UnmarshalLogEvent height (out.length + 1) log with
      | error e => rfl
      | ok dep =>
        simp only [ih]
        have harith : (out ++ [dep]).length + 1 = out.length + 1 + 1 := by simp
        rw [harith]
        cases hk : decodeKept height (out.length + 1 + 1)
            (rest.filter (fun l => l.Address = DepositContractAddr)) <;>
          simp [hk, Except.map]
    · rw [deriveFromLogs, if_neg ha, List.filter_cons_of_neg (by simpa using ha), ih out]

/-- `deriveFromReceipts` refines `decodeKept` over the kept logs,
appended to the accumulator, with indices continuing from it. -/
theorem deriveFromReceipts_eq (height : Nat) :
    ∀ (receipts : List Receipt) (out : List DepositTx),
      deriveFromReceipts height out receipts =
        (decodeKept height (out.length + 1) (keptLogs receipts)).map (out ++ ·) := by
  intro receipts
  induction receipts with
  | nil =>
    intro out
    simp [deriveFromReceipts, keptLogs, decodeKept, Except.map]
  | cons rcpt rest ih =>
    intro out
    by_cases hs : rcpt.Status = ReceiptStatusSuccessful
    · have hkept : keptLogs (rcpt :: rest) =
          rcpt.Logs.filter (fun l => l.Address = DepositContractAddr) ++ keptLogs rest := by
        simp [keptLogs, List.filter_cons_of_pos, hs]
      rw [deriveFromReceipts, if_neg (by simpa using hs), hkept, decodeKept_append,
        deriveFromLogs_eq]
      cases hk : decodeKept height (out.length + 1)
          (rcpt.Logs.filter (fun l => l.Address = DepositContractAddr)) with
      | error e => rfl
      | ok ds =>
        have hlen := (decodeKept_ok_spec height _ _ _ hk).1
        simp only [Except.map, ih]
        have harith : (out ++ ds).length + 1 = out.length + 1 +
            (rcpt.Logs.filter (fun l => l.Address = DepositContractAddr)).length := by
          simp [hlen]; omega
        rw [harith]
        cases hr : decodeKept height
            (out.length + 1 + (rcpt.Logs.filter (fun l => l.Address = DepositContractAddr)).length)
            (keptLogs rest) <;> simp [hr, Except.map, List.append_assoc]
    · have hkept : keptLogs (rcpt :: rest) = keptLogs rest := by
        simp [keptLogs, List.filter_cons_of_neg, hs]
      rw [deriveFromReceipts, if_pos (by simpa using hs), hkept, ih out]

/-- `DeriveUserDeposits` equals sequential decoding of the kept logs
starting at transaction index 1. -/
theorem deriveUserDeposits_eq (height : Nat) (receipts : List Receipt) :
    DeriveUserDeposits height receipts = decodeKept height 1 (keptLogs receipts) := by
  have h := deriveFromReceipts_eq height receipts []
  simp only [List.length_nil, Nat.zero_add] at h
  rw [DeriveUserDeposits, h]
  cases hk : decodeKept height 1 (keptLogs receipts) <;> simp [Except.map]

/-- C2: `DeriveUserDeposits` returns exactly the decoded deposits of the
kept logs — the logs of successful receipts emitted by the deposit
contract, in encounter order (receipts in original order, logs within a
receipt in original order) — with transaction indices assigned
sequentially 1..N in that encounter order, regardless of the logs'
original per-transaction indices; logs of failed receipts never
contribute. -/
theorem deriveUserDeposits_spec (height : Nat) (receipts : List Receipt) :
    DeriveUserDeposits height receipts = decodeKept height 1 (keptLogs receipts) ∧
    ∀ deps, DeriveUserDeposits height receipts = .ok deps →
      deps.length = (keptLogs receipts).length ∧
      ∀ i (hi : i < deps.length), (deps.get ⟨i, hi⟩).TransactionIndex = 1 + i := by
  refine ⟨deriveUserDeposits_eq height receipts, ?_⟩
  intro deps h
  rw [deriveUserDeposits_eq] at h
  exact decodeKept_ok_spec height _ _ _ h

/-- Evaluation witness for C2 on a one-receipt, one-deposit block. -/
theorem deriveUserDeposits_spec_witness :
    DeriveUserDeposits 7 [{ Status := 1, Logs := [sampleLog] }] =
      decodeKept 7 1 (keptLogs [{ Status := 1, Logs := [sampleLog] }]) ∧
    ([sampleDep].length = (keptLogs [{ Status := 1, Logs := [sampleLog] }]).length ∧
      ∀ i (hi : i < [sampleDep].length),
        ([sampleDep].get ⟨i, hi⟩).TransactionIndex = 1 + i) :=
  ⟨(deriveUserDeposits_spec 7 [{ Status := 1, Logs := [sampleLog] }]).1,
   (deriveUserDeposits_spec 7 [{ Status := 1, Logs := [sampleLog] }]).2 [sampleDep] (by decide)⟩

/-- An `UnmarshalLogEvent` failure is exactly a `logDecodeErr` result;
in particular the error never depends on the height or index
arguments. -/
theorem unmarshalLogEvent_error_iff_some (blockNum txIndex : Nat) (ev : Log) (e : DeriveErr) :
    UnmarshalLogEvent blockNum txIndex ev = .error e ↔ logDecodeErr ev = some e := by
  unfold UnmarshalLogEvent logDecodeErr
  split_ifs <;> simp_all

/-- `UnmarshalLogEvent` succeeds exactly when `logDecodeErr` reports no
failure. -/
theorem unmarshalLogEvent_ok_iff_none (blockNum txIndex : Nat) (ev : Log) :
    logDecodeErr ev = none ↔ ∃ dep, UnmarshalLogEvent blockNum txIndex ev = .ok dep := by
  unfold UnmarshalLogEvent logDecodeErr
  split_ifs <;> simp_all

/-- The first kept log that fails to decode aborts `decodeKept` with its
error, wrapped. -/
theorem decodeKept_error_of_findSome (height : Nat) :
    ∀ (logs : List Log) (idx : Nat) (e : DeriveErr),
      logs.findSome? logDecodeErr = some e →
      decodeKept height idx logs = .error (.malformattedDepositLog e) := by
  intro logs
  induction logs with
  | nil => intro idx e h; simp [List.findSome?] at h
  | cons log rest ih =>
    intro idx e h
    rw [decodeKept_cons]
    cases hl : logDecodeErr log with
    | some e0 =>
      have he : e0 = e := by
        rw [List.findSome?_cons, hl] at h
        exact Option.some.inj h
      subst he
      rw [(unmarshalLogEvent_error_iff_some height idx log e0).2 hl]
    | none =>
      obtain ⟨dep, hdep⟩ := (unmarshalLogEvent_ok_iff_none height idx log).1 hl
      rw [hdep]
      have h' : rest.findSome? logDecodeErr = some e := by
        rw [List.findSome?_cons, hl] at h
        exact h
      rw [ih (idx + 1) e h']
      rfl

/-- C8: if any kept log fails to decode, `DeriveUserDeposits` aborts the
whole call with the underlying failure wrapped as a malformatted-log
error; no deposit list accompanies the error. -/
theorem deriveUserDeposits_abort (height : Nat) (receipts : List Receipt) (e : DeriveErr)
    (h : (keptLogs receipts).findSome? logDecodeErr = some e) :
    DeriveUserDeposits height receipts = .error (.malformattedDepositLog e) := by
  rw [deriveUserDeposits_eq]
  exact decodeKept_error_of_findSome height _ 1 e h

/-- Evaluation witness for C8 on a receipt with one malformed deposit
log. -/
theorem deriveUserDeposits_abort_witness :
    (keptLogs [badRcpt]).findSome? logDecodeErr = some (.incorrectDataOffset 128) ∧
    DeriveUserDeposits 7 [badRcpt] =
      .error (.malformattedDepositLog (.incorrectDataOffset 128)) :=
  ⟨by decide, deriveUserDeposits_abort 7 [badRcpt] (.incorrectDataOffset 128) (by decide)⟩

/-- A `decodeKept` failure is independent of the height and of the
starting transaction index. -/
theorem decodeKept_error_irrel (height height' : Nat) :
    ∀ (logs : List Log) (idx idx' : Nat) (e : DeriveErr),
      decodeKept height idx logs = .error e →
      decodeKept height' idx' logs = .error e := by
  intro logs
  induction logs with
  | nil => intro idx idx' e h; simp [decodeKept] at h
  | cons log rest ih =>
    intro idx idx' e h
    rw [decodeKept_cons] at h
    rw [decodeKept_cons]
    cases hl : logDecodeErr log with
    | some e0 =>
      have hu := (unmarshalLogEvent_error_iff_some height idx log e0).2 hl
      have hu' := (unmarshalLogEvent_error_iff_some height' idx' log e0).2 hl
      rw [hu] at h
      rw [hu']
      simpa using h
    | none =>
      obtain ⟨dep, hdep⟩ := (unmarshalLogEvent_ok_iff_none height idx log).1 hl
      obtain ⟨dep', hdep'⟩ := (unmarshalLogEvent_ok_iff_none height' idx' log).1 hl
      rw [hdep] at h
      rw [hdep']
      cases hk : decodeKept height (idx + 1) rest with
      | ok ds => rw [hk] at h; simp [Except.map] at h
      | error e1 =>
        rw [hk] at h
        simp [Except.map] at h
        subst h
        rw [ih (idx + 1) (idx' + 1) e1 hk]
        rfl

/-- C9 counterexample: a derivation failure carries no block-height or
log-index context — the error surfaced for a malformed deposit log is
byte-for-byte the same at height 5 and height 99, and the same whether
the bad log is the first kept log or preceded by another deposit. -/
theorem deriveFailure_no_context_counterexample :
    isErr (DeriveUserDeposits 5 [badRcpt]) = true ∧
    DeriveUserDeposits 5 [badRcpt] = DeriveUserDeposits 99 [badRcpt] ∧
    DeriveUserDeposits 5 [badRcpt] =
      DeriveUserDeposits 5 [{ Status := 1, Logs := [sampleLog, badOffsetLog] }] := by
  decide

/-- C9 amended: every user-deposit derivation failure is surfaced to the
caller as the terminal result of the call, but without block-height or
log-index context: the surfaced error is unchanged under a change of
block height (and, per `decodeKept_error_irrel`, of assigned log
indices). -/
theorem deriveUserDeposits_error_no_context (height height' : Nat)
    (receipts : List Receipt) (e : DeriveErr)
    (h : DeriveUserDeposits height receipts = .error e) :
    DeriveUserDeposits height' receipts = .error e := by
  rw [deriveUserDeposits_eq] at h
  rw [deriveUserDeposits_eq]
  exact decodeKept_error_irrel height height' _ 1 1 e h

/-- Evaluation witness for the amended C9. -/
theorem deriveUserDeposits_error_no_context_witness :
    DeriveUserDeposits 5 [badRcpt] =
      .error (.malformattedDepositLog (.incorrectDataOffset 128)) ∧
    DeriveUserDeposits 99 [badRcpt] =
      .error (.malformattedDepositLog (.incorrectDataOffset 128)) :=
  ⟨by decide,
   deriveUserDeposits_error_no_context 5 99 [badRcpt]
     (.malformattedDepositLog (.incorrectDataOffset 128)) (by decide)⟩

/-- The user-transaction encoding loop never fails and encodes each
deposit in order. -/
theorem encodeUserTxs_eq :
    ∀ (txs : List DepositTx) (i : Nat),
      encodeUserTxs i txs = .ok (txs.map encodeDepositTx) := by
  intro txs
  induction txs with
  | nil => intro i; rfl
  | cons tx rest ih => intro i; simp [encodeUserTxs, MarshalBinary, ih]

/-- C5: when the receipts-integrity check fails, `DeriveBlockInputs` is
exactly the integrity-mismatch error: no encoding, no deposit
derivation, and no partial payload-attributes record. -/
theorem deriveBlockInputs_integrityMismatch (block : BlockInput) (receipts : List Receipt)
    (h : CheckReceipts block receipts = false) :
    DeriveBlockInputs block receipts = .error (.integrityMismatch block.ReceiptHash) := by
  simp [DeriveBlockInputs, h]

/-- Evaluation witness for C5 on a block whose claimed receipts root is
wrong. -/
theorem deriveBlockInputs_integrityMismatch_witness :
    CheckReceipts mismatchBlock [] = false ∧
    DeriveBlockInputs mismatchBlock [] =
      .error (.integrityMismatch mismatchBlock.ReceiptHash) :=
  ⟨by decide, deriveBlockInputs_integrityMismatch mismatchBlock [] (by decide)⟩

/-- C4: whenever `DeriveBlockInputs` succeeds, the transaction list is
the encoded L1-info transaction followed by the encoded user deposits in
encounter order, and the suggested fee recipient is the zero address; a
block whose receipts yield zero deposits gives exactly the one L1-info
entry. -/
theorem deriveBlockInputs_spec (block : BlockInput) (receipts : List Receipt)
    (attrs : PayloadAttributes) (h : DeriveBlockInputs block receipts = .ok attrs) :
    ∃ deps, DeriveUserDeposits block.NumberU64 receipts = .ok deps ∧
      attrs.Transactions =
        encodeDepositTx (DeriveL1InfoDeposit block.toL1Info) :: deps.map encodeDepositTx ∧
      attrs.SuggestedFeeRecipient = List.replicate 20 0 ∧
      (deps = [] →
        attrs.Transactions = [encodeDepositTx (DeriveL1InfoDeposit block.toL1Info)]) := by
  unfold DeriveBlockInputs at h
  by_cases hc : CheckReceipts block receipts
  · rw [if_neg (by simpa using hc)] at h
    rw [show MarshalBinary (DeriveL1InfoDeposit block.toL1Info) =
        .ok (encodeDepositTx (DeriveL1InfoDeposit block.toL1Info)) from rfl] at h
    cases hd : DeriveUserDeposits block.NumberU64 receipts with
    | error e => rw [hd] at h; simp at h
    | ok deps =>
      rw [hd] at h
      simp only [encodeUserTxs_eq, Except.ok.injEq] at h
      subst h
      exact ⟨deps, rfl, rfl, rfl, fun hnil => by simp [hnil]⟩
  · rw [if_pos (by simpa using hc)] at h
    simp at h

/-- Evaluation witness for C4 on a block with zero deposits. -/
theorem deriveBlockInputs_spec_witness :
    DeriveBlockInputs okBlock [] = .ok okAttrs ∧
    (∃ deps, DeriveUserDeposits okBlock.NumberU64 [] = .ok deps ∧
      okAttrs.Transactions =
        encodeDepositTx (DeriveL1InfoDeposit okBlock.toL1Info) :: deps.map encodeDepositTx ∧
      okAttrs.SuggestedFeeRecipient = List.replicate 20 0 ∧
      (deps = [] →
        okAttrs.Transactions = [encodeDepositTx (DeriveL1InfoDeposit okBlock.toL1Info)])) :=
  ⟨by decide, deriveBlockInputs_spec okBlock [] okAttrs (by decide)⟩

/-- C6: on every successful decode, `Mint` is absent iff the encoded
mint amount (second 32-byte unindexed field) is exactly zero, and `To`
is absent iff the last byte of the creation-flag slot is nonzero; when
that byte is zero, `To` is the address decoded from topic[2]. -/
theorem unmarshalLogEvent_mint_to (blockNum txIndex : Nat) (ev : Log) (dep : DepositTx)
    (h : UnmarshalLogEvent blockNum txIndex ev = .ok dep) :
    (dep.Mint = none ↔ bytesToNat (sliceBytes ev.Data 32 32) = 0) ∧
    (dep.To = none ↔ ev.Data.getD (96 + 31) 0 ≠ 0) ∧
    (ev.Data.getD (96 + 31) 0 = 0 →
      dep.To = some (bytesToAddress ((ev.Topics.getD 2 []).drop 12))) := by
  unfold UnmarshalLogEvent at h
  split_ifs at h <;> cases h <;> simp_all

/-- Evaluation witness for C6 on `sampleLog` (mint zero, creation flag
clear). -/
theorem unmarshalLogEvent_mint_to_witness :
    UnmarshalLogEvent 7 1 sampleLog = .ok sampleDep ∧
    ((sampleDep.Mint = none ↔ bytesToNat (sliceBytes sampleLog.Data 32 32) = 0) ∧
     (sampleDep.To = none ↔ sampleLog.Data.getD (96 + 31) 0 ≠ 0) ∧
     (sampleLog.Data.getD (96 + 31) 0 = 0 →
       sampleDep.To = some (bytesToAddress ((sampleLog.Topics.getD 2 []).drop 12)))) :=
  ⟨by decide, unmarshalLogEvent_mint_to 7 1 sampleLog sampleDep (by decide)⟩

/-- C7: on every successful decode, `Data` is exactly the declared
data-length bytes starting at byte offset 192; trailing padding beyond
the declared length is discarded. -/
theorem unmarshalLogEvent_data_slice (blockNum txIndex : Nat) (ev : Log) (dep : DepositTx)
    (h : UnmarshalLogEvent blockNum txIndex ev = .ok dep) :
    dep.Data = (ev.Data.drop 192).take (bytesToNat (sliceBytes ev.Data 160 32)) ∧
    dep.Data.length = bytesToNat (sliceBytes ev.Data 160 32) := by
  unfold UnmarshalLogEvent at h
  split_ifs at h <;> cases h <;>
    exact ⟨rfl, by simp_all [sliceBytes]⟩

/-- Evaluation witness for C7 on `sampleLog`, whose payload carries two
trailing padding bytes beyond the declared length 2. -/
theorem unmarshalLogEvent_data_slice_witness :
    UnmarshalLogEvent 7 1 sampleLog = .ok sampleDep ∧
    (sampleDep.Data = (sampleLog.Data.drop 192).take
        (bytesToNat (sliceBytes sampleLog.Data 160 32)) ∧
      sampleDep.Data.length = bytesToNat (sliceBytes sampleLog.Data 160 32)) :=
  ⟨by decide, unmarshalLogEvent_data_slice 7 1 sampleLog sampleDep (by decide)⟩

/-- C10: the declared data-offset field is never used to locate the
data: whenever every other check passes and the offset differs from
128 — even a value inconsistent with the data's actual position — the
decode succeeds and reads the data from the fixed byte offset 192. -/
theorem unmarshalLogEvent_offset_not_used (blockNum txIndex : Nat) (ev : Log)
    (h1 : ev.Topics.length = 3)
    (h2 : ev.Topics.getD 0 [] = DepositEventABIHash)
    (h3 : 192 ≤ ev.Data.length)
    (h4 : bytesToNat (sliceBytes ev.Data 64 32) < 2 ^ 64)
    (h5 : bytesToNat (sliceBytes ev.Data 128 32) ≠ 128)
    (h6 : bytesToNat (sliceBytes ev.Data 160 32) < 2 ^ 64)
    (h7 : bytesToNat (sliceBytes ev.Data 160 32) ≤ ev.Data.length - 192) :
    ∃ dep, UnmarshalLogEvent blockNum txIndex ev = .ok dep ∧
      dep.Data = (ev.Data.drop 192).take (bytesToNat (sliceBytes ev.Data 160 32)) := by
  unfold UnmarshalLogEvent
  split_ifs <;>
    first
      | omega
      | exact ⟨_, rfl, rfl⟩
      | simp_all

/-- Evaluation witness for C10 on `oddOffsetLog`, whose data-offset
field is 999 — inconsistent with the actual data position — yet which
decodes successfully. -/
theorem unmarshalLogEvent_offset_not_used_witness :
    bytesToNat (sliceBytes oddOffsetLog.Data 128 32) = 999 ∧
    (∃ dep, UnmarshalLogEvent 7 1 oddOffsetLog = .ok dep ∧
      dep.Data = (oddOffsetLog.Data.drop 192).take
        (bytesToNat (sliceBytes oddOffsetLog.Data 160 32))) :=
  ⟨by decide,
   unmarshalLogEvent_offset_not_used 7 1 oddOffsetLog (by decide) (by decide) (by decide)
     (by decide) (by decide) (by decide) (by decide)⟩

/-- `beBytes` always produces exactly `w` bytes. -/
theorem beBytes_length : ∀ (w n : Nat), (beBytes w n).length = w := by
  intro w
  induction w with
  | zero => intro n; rfl
  | succ w ih => intro n; simp [beBytes, ih]

/-- `beBytes` encodes big-endian: reading it back gives `n % 256 ^ w`. -/
theorem bytesToNat_beBytes : ∀ (w n : Nat), bytesToNat (beBytes w n) = n % 256 ^ w := by
  intro w
  induction w with
  | zero => intro n; simp [beBytes, bytesToNat, Nat.mod_one]
  | succ w ih =>
    intro n
    have hfold : bytesToNat (beBytes w (n / 256) ++ [n % 256]) =
        bytesToNat (beBytes w (n / 256)) * 256 + n % 256 := by
      simp [bytesToNat, List.foldl_append]
    have hmul : n % (256 * 256 ^ w) = n % 256 + 256 * (n / 256 % 256 ^ w) := Nat.mod_mul
    have hpow : (256 : Nat) ^ (w + 1) = 256 * 256 ^ w := by ring
    rw [beBytes, hfold, ih, hpow, hmul]
    ring

/-- Taking exactly the length of the left part of an append yields it. -/
theorem take_append_of_length {α : Type} (l1 l2 : List α) (n : Nat) (h : l1.length = n) :
    (l1 ++ l2).take n = l1 := by
  subst h
  exact List.take_left l1 l2

/-- Dropping exactly the length of the left part of an append removes it. -/
theorem drop_append_of_length {α : Type} (l1 l2 : List α) (n : Nat) (h : l1.length = n) :
    (l1 ++ l2).drop n = l2 := by
  subst h
  exact List.drop_left l1 l2

/-- C3: the L1-info deposit transaction is sent from the deposit
contract to the L1-info predeploy, with zero value, no mint, gas
99,999,999 and transaction index 0, and its payload is exactly 84 bytes:
4-byte selector ++ 8-byte big-endian number ++ 8-byte big-endian
timestamp ++ 32-byte big-endian base fee ++ 32-byte hash. The builder
takes only the `L1Info` block view, so the result does not depend on
receipts content. -/
theorem deriveL1InfoDeposit_spec (block : L1Info)
    (hn : block.NumberU64 < 2 ^ 64) (ht : block.Time < 2 ^ 64)
    (hb : block.BaseFee < 2 ^ 256) (hh : block.Hash.length = 32) :
    DeriveL1InfoDeposit block =
      { BlockHeight := block.NumberU64, TransactionIndex := 0,
        From := DepositContractAddr, To := some L1InfoPredeployAddr,
        Mint := none, Value := 0, Gas := 99999999,
        Data := L1InfoFuncBytes4 ++ beBytes 8 block.NumberU64 ++ beBytes 8 block.Time
          ++ beBytes 32 block.BaseFee ++ block.Hash } ∧
    (DeriveL1InfoDeposit block).Data.length = 84 ∧
    bytesToNat (sliceBytes (DeriveL1InfoDeposit block).Data 4 8) = block.NumberU64 ∧
    bytesToNat (sliceBytes (DeriveL1InfoDeposit block).Data 12 8) = block.Time ∧
    bytesToNat (sliceBytes (DeriveL1InfoDeposit block).Data 20 32) = block.BaseFee ∧
    sliceBytes (DeriveL1InfoDeposit block).Data 52 32 = block.Hash := by
  have htake : block.Hash.take 32 = block.Hash := by
    rw [← hh]
    exact List.take_length _
  have htail : block.Hash.take 32 ++ List.replicate (32 - block.Hash.length) 0 = block.Hash := by
    rw [hh, htake]
    simp
  have hrecord : DeriveL1InfoDeposit block =
      { BlockHeight := block.NumberU64, TransactionIndex := 0,
        From := DepositContractAddr, To := some L1InfoPredeployAddr,
        Mint := none, Value := 0, Gas := 99999999,
        Data := L1InfoFuncBytes4 ++ beBytes 8 block.NumberU64 ++ beBytes 8 block.Time
          ++ beBytes 32 block.BaseFee ++ block.Hash } := by
    simp only [DeriveL1InfoDeposit]
    rw [htail]
  have hdata : (DeriveL1InfoDeposit block).Data =
      L1InfoFuncBytes4 ++ beBytes 8 block.NumberU64 ++ beBytes 8 block.Time
        ++ beBytes 32 block.BaseFee ++ block.Hash := by
    rw [hrecord]
  have hb4 : L1InfoFuncBytes4.length = 4 := rfl
  have hlen : (DeriveL1InfoDeposit block).Data.length = 84 := by
    rw [hdata]
    simp [List.length_append, beBytes_length, hh, hb4]
  have hD4 : (DeriveL1InfoDeposit block).Data =
      L1InfoFuncBytes4 ++ (beBytes 8 block.NumberU64 ++ (beBytes 8 block.Time
        ++ (beBytes 32 block.BaseFee ++ block.Hash))) := by
    rw [hdata]
    simp [List.append_assoc]
  have hD12 : (DeriveL1InfoDeposit block).Data =
      (L1InfoFuncBytes4 ++ beBytes 8 block.NumberU64) ++ (beBytes 8 block.Time
        ++ (beBytes 32 block.BaseFee ++ block.Hash)) := by
    rw [hdata]
    simp [List.append_assoc]
  have hD20 : (DeriveL1InfoDeposit block).Data =
      ((L1InfoFuncBytes4 ++ beBytes 8 block.NumberU64) ++ beBytes 8 block.Time)
        ++ (beBytes 32 block.BaseFee ++ block.Hash) := by
    rw [hdata]
    simp [List.append_assoc]
  have hD52 : (DeriveL1InfoDeposit block).Data =
      (((L1InfoFuncBytes4 ++ beBytes 8 block.NumberU64) ++ beBytes 8 block.Time)
        ++ beBytes 32 block.BaseFee) ++ block.Hash := by
    rw [hdata]
  have hnum : bytesToNat (sliceBytes (DeriveL1InfoDeposit block).Data 4 8) = block.NumberU64 := by
    simp only [sliceBytes]
    rw [hD4, drop_append_of_length _ _ 4 hb4,
      take_append_of_length _ _ 8 (beBytes_length 8 _), bytesToNat_beBytes]
    have h256 : (256 : Nat) ^ 8 = 2 ^ 64 := by norm_num
    rw [h256]
    exact Nat.mod_eq_of_lt hn
  have htime : bytesToNat (sliceBytes (DeriveL1InfoDeposit block).Data 12 8) = block.Time := by
    simp only [sliceBytes]
    rw [hD12, drop_append_of_length _ _ 12 (by simp [beBytes_length, hb4]),
      take_append_of_length _ _ 8 (beBytes_length 8 _), bytesToNat_beBytes]
    have h256 : (256 : Nat) ^ 8 = 2 ^ 64 := by norm_num
    rw [h256]
    exact Nat.mod_eq_of_lt ht
  have hfee : bytesToNat (sliceBytes (DeriveL1InfoDeposit block).Data 20 32) = block.BaseFee := by
    simp only [sliceBytes]
    rw [hD20, drop_append_of_length _ _ 20 (by simp [beBytes_length, hb4]),
      take_append_of_length _ _ 32 (beBytes_length 32 _), bytesToNat_beBytes]
    have h256 : (256 : Nat) ^ 32 = 2 ^ 256 := by norm_num
    rw [h256]
    exact Nat.mod_eq_of_lt hb
  have hhash : sliceBytes (DeriveL1InfoDeposit block).Data 52 32 = block.Hash := by
    simp only [sliceBytes]
    rw [hD52, drop_append_of_length _ _ 52 (by simp [beBytes_length, hb4])]
    rw [List.take_of_length_le (le_of_eq hh)]
  exact ⟨hrecord, hlen, hnum, htime, hfee, hhash⟩

/-- Evaluation witness for C3 on a concrete block view. -/
theorem deriveL1InfoDeposit_spec_witness :
    (okBlock.toL1Info.NumberU64 < 2 ^ 64 ∧ okBlock.toL1Info.Time < 2 ^ 64 ∧
     okBlock.toL1Info.BaseFee < 2 ^ 256 ∧ okBlock.toL1Info.Hash.length = 32) ∧
    DeriveL1InfoDeposit okBlock.toL1Info =
      { BlockHeight := okBlock.toL1Info.NumberU64, TransactionIndex := 0,
        From := DepositContractAddr, To := some L1InfoPredeployAddr,
        Mint := none, Value := 0, Gas := 99999999,
        Data := L1InfoFuncBytes4 ++ beBytes 8 okBlock.toL1Info.NumberU64
          ++ beBytes 8 okBlock.toL1Info.Time ++ beBytes 32 okBlock.toL1Info.BaseFee
          ++ okBlock.toL1Info.Hash } :=
  ⟨⟨by decide, by decide, by decide, by decide⟩,
   (deriveL1InfoDeposit_spec okBlock.toL1Info (by decide) (by decide) (by decide)
     (by decide)).1⟩

end OpNode
